import Mathlib

/-!
Verification development for the OGS log parser
(ogs6py/log_parser/log_parser.py).

The parser reads a solver log line by line, classifies each line against a
fixed ordered list of regular expressions, accumulates scalar timings and
convergence records across lines, and assembles a nested
Simulation / TimeStep / Iteration / ComponentConvergence record, which is then
flattened into one row per convergence leaf.

Modelling conventions:
- A line is a `List Char` (newline-free: Python's file iteration yields lines
  with a trailing newline, but none of the regular expressions can consume a
  newline, and the end anchor of the convergence patterns matches just before
  a trailing newline, so matching on the newline-stripped line is equivalent).
- Python floats are modelled as exact rationals.  The parser only stores the
  parsed numbers and compares nothing, so an exact representation is
  observationally faithful; the string grammar accepted by CPython float() is
  modelled for finite decimal/scientific literals (the inf/nan words and digit
  group underscores cannot be produced by the numeric capture classes used
  here and are out of the model).
- Each regular expression of the source is compiled to an anchored matcher
  built from literal segments and maximal munch over its capture classes.
  This is exact: in every pattern of the source, each one-or-more capture
  class excludes the character that immediately follows the group (a space,
  comma or colon, or the group is followed only by the end of the pattern or
  the end anchor), so the backtracking-free maximal munch is the unique match.
- Python object identity of TimeStep objects matters for the code (the same
  object can be appended to the result twice); it is modelled by a ghost
  allocation counter field `uid`, set from a fresh-uid counter at the two
  allocation sites and never mutated.
- The constant `index_name` class attributes only contribute fixed key
  prefixes to the flattened row dictionaries; the flattener is modelled with a
  fixed-field row record whose field names spell out those prefixed keys.
-/

deriving instance DecidableEq for Except

namespace Ogs

/-- Convert a string literal to the list-of-characters representation used for
log lines throughout this development. -/
def s2l (s : String) : List Char := s.toList

/-- Maximal munch: split a list into the longest front segment whose
characters all satisfy `p`, and the remainder. -/
def munch (p : Char → Bool) : List Char → List Char × List Char
  | [] => ([], [])
  | c :: cs =>
    if p c then
      let r := munch p cs
      (c :: r.1, r.2)
    else ([], c :: cs)

/-- One-or-more maximal munch (the `+` quantifier on a character class):
fails on an empty munch. -/
def munch1 (p : Char → Bool) (s : List Char) : Option (List Char × List Char) :=
  match munch p s with
  | ([], _) => none
  | (a, b) => some (a, b)

/-- Consume an exact literal segment of a pattern; returns the remainder of
the line on success. -/
def lit : List Char → List Char → Option (List Char)
  | [], s => some s
  | _ :: _, [] => none
  | p :: ps, c :: cs => if p = c then lit ps cs else none

/-- Value of a digit string (the guaranteed-successful `int` conversion on a
capture of one or more digit characters). -/
def digitsToNat (ds : List Char) : Nat :=
  ds.foldl (fun a c => 10 * a + (c.toNat - 48)) 0

/-- The character class `[\d\.e+s]` of the source's timing patterns. -/
def classFloatS (c : Char) : Bool :=
  c.isDigit || c == '.' || c == 'e' || c == '+' || c == 's'

/-- The character class `[\d\.e+-]` of the source's convergence patterns. -/
def classFloatPM (c : Char) : Bool :=
  c.isDigit || c == '.' || c == 'e' || c == '+' || c == '-'

/-- Value of a decimal scientific literal: mantissa digits `m` with `f` of
them behind the decimal point, times ten to the integer power `e`; as a single
normalized rational. -/
def sciRat (m : Nat) (f : Nat) : Int → ℚ
  | .ofNat k => mkRat (m * 10 ^ k) (10 ^ f)
  | .negSucc k => mkRat m (10 ^ f * 10 ^ (k + 1))

/-- Exponent digits of a float literal: one or more digits consuming the whole
remainder. -/
def pyExpDigits (r : List Char) : Option Int :=
  match munch Char.isDigit r with
  | ([], _) => none
  | (ds, []) => some (digitsToNat ds : Int)
  | (_, _ :: _) => none

/-- Optionally signed exponent of a float literal. -/
def pyExp : List Char → Option Int
  | '+' :: r => pyExpDigits r
  | '-' :: r => (pyExpDigits r).map (fun e => -e)
  | r => pyExpDigits r

/-- Unsigned body of a CPython float literal: integer digits, an optional
fraction, and an optional scientific exponent; the mantissa must contain at
least one digit and the whole input must be consumed. -/
def pyFloatBody (s : List Char) : Option ℚ :=
  let ipr := munch Char.isDigit s
  let fpr : List Char × List Char :=
    match ipr.2 with
    | '.' :: r => munch Char.isDigit r
    | _ => ([], ipr.2)
  if ipr.1.isEmpty && fpr.1.isEmpty then none
  else
    let m := digitsToNat (ipr.1 ++ fpr.1)
    let f := fpr.1.length
    match fpr.2 with
    | [] => some (sciRat m f 0)
    | 'e' :: r => (pyExp r).map (fun e => sciRat m f e)
    | 'E' :: r => (pyExp r).map (fun e => sciRat m f e)
    | _ => none

/-- Strip leading and trailing whitespace, as CPython's numeric conversions
do. -/
def stripWs (s : List Char) : List Char :=
  ((s.dropWhile Char.isWhitespace).reverse.dropWhile Char.isWhitespace).reverse

/-- CPython `float()` on a captured substring, as an exact rational; `none`
models a ValueError. -/
def pyFloat (s : List Char) : Option ℚ :=
  match stripWs s with
  | '+' :: r => pyFloatBody r
  | '-' :: r => (pyFloatBody r).map (fun q => -q)
  | r => pyFloatBody r

/-- Shape match for `_re_iteration`:
`info: \[time\] Iteration #(\d+) took ([\d\.e+s]+) s`. -/
def reIterationShape (l : List Char) : Option (List Char × List Char) := do
  let s0 ← lit (s2l "info: [time] Iteration #") l
  let (g1, s1) ← munch1 Char.isDigit s0
  let s2 ← lit (s2l " took ") s1
  let (g2, s3) ← munch1 classFloatS s2
  let _ ← lit (s2l " s") s3
  pure (g1, g2)

/-- Shape match for `_re_time_step_start`:
`info: === Time stepping at step #(\d+) and time ([\d\.e+s]+) with step size (.*)`. -/
def reTimeStepStartShape (l : List Char) :
    Option (List Char × List Char × List Char) := do
  let s0 ← lit (s2l "info: === Time stepping at step #") l
  let (g1, s1) ← munch1 Char.isDigit s0
  let s2 ← lit (s2l " and time ") s1
  let (g2, s3) ← munch1 classFloatS s2
  let s4 ← lit (s2l " with step size ") s3
  pure (g1, g2, s4)

/-- Shape match for `_re_time_step_output`:
`info: \[time\] Output of timestep (\d+) took ([\d\.e+s]+) s`. -/
def reTimeStepOutputShape (l : List Char) : Option (List Char × List Char) := do
  let s0 ← lit (s2l "info: [time] Output of timestep ") l
  let (g1, s1) ← munch1 Char.isDigit s0
  let s2 ← lit (s2l " took ") s1
  let (g2, s3) ← munch1 classFloatS s2
  let _ ← lit (s2l " s") s3
  pure (g1, g2)

/-- Shape match for `_re_time_step_solution_time`:
`info: \[time\] Solving process #(\d+) took ([\d\.e+s]+) s in time step #(\d+)`. -/
def reTimeStepSolutionTimeShape (l : List Char) :
    Option (List Char × List Char × List Char) := do
  let s0 ← lit (s2l "info: [time] Solving process #") l
  let (g1, s1) ← munch1 Char.isDigit s0
  let s2 ← lit (s2l " took ") s1
  let (g2, s3) ← munch1 classFloatS s2
  let s4 ← lit (s2l " s in time step #") s3
  let (g3, _) ← munch1 Char.isDigit s4
  pure (g1, g2, g3)

/-- Shape match for `_re_time_step_finished`:
`info: \[time\] Time step #(\d+) took ([\d\.e+s]+) s`. -/
def reTimeStepFinishedShape (l : List Char) : Option (List Char × List Char) := do
  let s0 ← lit (s2l "info: [time] Time step #") l
  let (g1, s1) ← munch1 Char.isDigit s0
  let s2 ← lit (s2l " took ") s1
  let (g2, s3) ← munch1 classFloatS s2
  let _ ← lit (s2l " s") s3
  pure (g1, g2)

/-- Shape match for `_re_assembly_time`:
`info: \[time\] Assembly took ([\d\.e+s]+) s`. -/
def reAssemblyTimeShape (l : List Char) : Option (List Char) := do
  let s0 ← lit (s2l "info: [time] Assembly took ") l
  let (g1, s1) ← munch1 classFloatS s0
  let _ ← lit (s2l " s") s1
  pure g1

/-- Shape match for `_re_dirichlet_bc_time`:
`info: \[time\] Applying Dirichlet BCs took ([\d\.e+s]+) s`. -/
def reDirichletBcTimeShape (l : List Char) : Option (List Char) := do
  let s0 ← lit (s2l "info: [time] Applying Dirichlet BCs took ") l
  let (g1, s1) ← munch1 classFloatS s0
  let _ ← lit (s2l " s") s1
  pure g1

/-- Shape match for `_re_linear_solver_time`:
`info: \[time\] Linear solver took ([\d\.e+s]+) s`. -/
def reLinearSolverTimeShape (l : List Char) : Option (List Char) := do
  let s0 ← lit (s2l "info: [time] Linear solver took ") l
  let (g1, s1) ← munch1 classFloatS s0
  let _ ← lit (s2l " s") s1
  pure g1

/-- Shape match for `_re_phase_field_parameter`:
`info: The min of d is ([\d\.e+s]+)`. -/
def rePhaseFieldParameterShape (l : List Char) : Option (List Char) := do
  let s0 ← lit (s2l "info: The min of d is ") l
  let (g1, _) ← munch1 classFloatS s0
  pure g1

/-- Shape match for `_re_execution_time`:
`info: \[time\] Execution took ([\d\.e+s]+) s`. -/
def reExecutionTimeShape (l : List Char) : Option (List Char) := do
  let s0 ← lit (s2l "info: [time] Execution took ") l
  let (g1, s1) ← munch1 classFloatS s0
  let _ ← lit (s2l " s") s1
  pure g1

/-- Shape match for `_re_component_convergence`:
`info: Convergence criterion, component (\d+): \|dx\|=([\d\.e+-]+), \|x\|=([\d\.e+-]+), \|dx\|/\|x\|=([\d\.e+-]+)$`. -/
def reComponentConvergenceShape (l : List Char) :
    Option (List Char × List Char × List Char × List Char) := do
  let s0 ← lit (s2l "info: Convergence criterion, component ") l
  let (g1, s1) ← munch1 Char.isDigit s0
  let s2 ← lit (s2l ": |dx|=") s1
  let (g2, s3) ← munch1 classFloatPM s2
  let s4 ← lit (s2l ", |x|=") s3
  let (g3, s5) ← munch1 classFloatPM s4
  let s6 ← lit (s2l ", |dx|/|x|=") s5
  let (g4, s7) ← munch1 classFloatPM s6
  match s7 with
  | [] => pure (g1, g2, g3, g4)
  | _ :: _ => none

/-- Shape match for `_re_convergence`:
`info: Convergence criterion: \|dx\|=([\d\.e+-]+), \|x\|=([\d\.e+-]+), \|dx\|/\|x\|=([\d\.e+-]+)$`. -/
def reConvergenceShape (l : List Char) :
    Option (List Char × List Char × List Char) := do
  let s0 ← lit (s2l "info: Convergence criterion: |dx|=") l
  let (g1, s1) ← munch1 classFloatPM s0
  let s2 ← lit (s2l ", |x|=") s1
  let (g2, s3) ← munch1 classFloatPM s2
  let s4 ← lit (s2l ", |dx|/|x|=") s3
  let (g3, s5) ← munch1 classFloatPM s4
  match s5 with
  | [] => pure (g1, g2, g3)
  | _ :: _ => none

/-- The `float` conversion applied by `_tryMatch` to a captured substring; a
conversion failure is the ValueError carrying the offending substring. -/
def convFloat (g : List Char) : Except (List Char) ℚ :=
  match pyFloat g with
  | some q => .ok q
  | none => .error g

/-- `_tryMatch` with `_re_iteration`: `none` is no shape match, an error is a
conversion failure on the matched line. -/
def mIteration (l : List Char) : Option (Except (List Char) (Nat × ℚ)) :=
  (reIterationShape l).map (fun g => (convFloat g.2).map (fun t => (digitsToNat g.1, t)))

/-- `_tryMatch` with `_re_time_step_start` (conversions run left to right, so
the time capture is converted before the step-size capture). -/
def mTimeStepStart (l : List Char) : Option (Except (List Char) (Nat × ℚ × ℚ)) :=
  (reTimeStepStartShape l).map (fun g => do
    let t ← convFloat g.2.1
    let dt ← convFloat g.2.2
    pure (digitsToNat g.1, t, dt))

/-- `_tryMatch` with `_re_time_step_output`. -/
def mTimeStepOutput (l : List Char) : Option (Except (List Char) (Nat × ℚ)) :=
  (reTimeStepOutputShape l).map (fun g => (convFloat g.2).map (fun t => (digitsToNat g.1, t)))

/-- `_tryMatch` with `_re_time_step_solution_time`. -/
def mTimeStepSolutionTime (l : List Char) :
    Option (Except (List Char) (Nat × ℚ × Nat)) :=
  (reTimeStepSolutionTimeShape l).map (fun g =>
    (convFloat g.2.1).map (fun t => (digitsToNat g.1, t, digitsToNat g.2.2)))

/-- `_tryMatch` with `_re_time_step_finished`. -/
def mTimeStepFinished (l : List Char) : Option (Except (List Char) (Nat × ℚ)) :=
  (reTimeStepFinishedShape l).map (fun g => (convFloat g.2).map (fun t => (digitsToNat g.1, t)))

/-- `_tryMatch` with `_re_assembly_time`. -/
def mAssemblyTime (l : List Char) : Option (Except (List Char) ℚ) :=
  (reAssemblyTimeShape l).map convFloat

/-- `_tryMatch` with `_re_dirichlet_bc_time`. -/
def mDirichletBcTime (l : List Char) : Option (Except (List Char) ℚ) :=
  (reDirichletBcTimeShape l).map convFloat

/-- `_tryMatch` with `_re_linear_solver_time`. -/
def mLinearSolverTime (l : List Char) : Option (Except (List Char) ℚ) :=
  (reLinearSolverTimeShape l).map convFloat

/-- `_tryMatch` with `_re_phase_field_parameter`. -/
def mPhaseFieldParameter (l : List Char) : Option (Except (List Char) ℚ) :=
  (rePhaseFieldParameterShape l).map convFloat

/-- `_tryMatch` with `_re_execution_time`. -/
def mExecutionTime (l : List Char) : Option (Except (List Char) ℚ) :=
  (reExecutionTimeShape l).map convFloat

/-- `_tryMatch` with `_re_component_convergence`. -/
def mComponentConvergence (l : List Char) :
    Option (Except (List Char) (Nat × ℚ × ℚ × ℚ)) :=
  (reComponentConvergenceShape l).map (fun g => do
    let dx ← convFloat g.2.1
    let x ← convFloat g.2.2.1
    let rel ← convFloat g.2.2.2
    pure (digitsToNat g.1, dx, x, rel))

/-- `_tryMatch` with `_re_convergence`. -/
def mConvergence (l : List Char) : Option (Except (List Char) (ℚ × ℚ × ℚ)) :=
  (reConvergenceShape l).map (fun g => do
    let dx ← convFloat g.1
    let x ← convFloat g.2.1
    let rel ← convFloat g.2.2
    pure (dx, x, rel))

/-- The `ComponentConvergence` dataclass. -/
structure ComponentConvergence where
  number : Nat
  dx : ℚ
  x : ℚ
  dx_relative : ℚ
deriving DecidableEq

/-- The `Iteration` dataclass.  The occasionally-absent scalar fields hold
`none` for Python's `None`. -/
structure Iteration where
  number : Nat
  assembly_time : Option ℚ
  dirichlet_bc_time : Option ℚ
  linear_solver_time : Option ℚ
  cpu_time : ℚ
  phase_field_parameter : Option ℚ
  component_convergence : List ComponentConvergence
deriving DecidableEq

/-- The `TimeStep` dataclass.  `uid` is a ghost allocation counter modelling
Python object identity (the source can append one and the same TimeStep
object to the result list more than once); `solution_time` is the attribute
assigned dynamically by the per-process-solve branch of the loop. -/
structure TimeStep where
  uid : Nat
  number : Nat
  t : ℚ
  dt : Option ℚ
  iterations : List Iteration
  cpu_time : Option ℚ
  output_time : Option ℚ
  solution_time : Option ℚ
deriving DecidableEq

/-- The `Simulation` dataclass. -/
structure Simulation where
  timesteps : List TimeStep
  mesh_read_time : Option ℚ
  execution_time : Option ℚ
deriving DecidableEq

/-- Result of classifying one (already prefix-stripped) line against the
ordered grammar registry of the source's main loop, with the captured fields
already converted.  `convFail` is a conversion ValueError carrying the
offending captured substring; `other` is an unrecognized line. -/
inductive Classified where
  | iter (n : Nat) (t : ℚ)
  | assembly (t : ℚ)
  | dirichlet (t : ℚ)
  | linsolve (t : ℚ)
  | phase (t : ℚ)
  | compConv (n : Nat) (dx x rel : ℚ)
  | conv (dx x rel : ℚ)
  | tsStart (n : Nat) (t : ℚ) (dt : ℚ)
  | solTime (n : Nat) (t : ℚ) (n2 : Nat)
  | output (n : Nat) (t : ℚ)
  | tsFinished (n : Nat) (t : ℚ)
  | exec (t : ℚ)
  | other
  | convFail (u : List Char)
deriving DecidableEq

/-- First-match-wins dispatch over the grammar registry, in the exact order of
the `if r := _tryMatch(...)` chain of `parse_file`. -/
def classify (l : List Char) : Classified :=
  match mIteration l with
  | some (.error u) => .convFail u
  | some (.ok r) => .iter r.1 r.2
  | none =>
  match mAssemblyTime l with
  | some (.error u) => .convFail u
  | some (.ok t) => .assembly t
  | none =>
  match mDirichletBcTime l with
  | some (.error u) => .convFail u
  | some (.ok t) => .dirichlet t
  | none =>
  match mLinearSolverTime l with
  | some (.error u) => .convFail u
  | some (.ok t) => .linsolve t
  | none =>
  match mPhaseFieldParameter l with
  | some (.error u) => .convFail u
  | some (.ok t) => .phase t
  | none =>
  match mComponentConvergence l with
  | some (.error u) => .convFail u
  | some (.ok r) => .compConv r.1 r.2.1 r.2.2.1 r.2.2.2
  | none =>
  match mConvergence l with
  | some (.error u) => .convFail u
  | some (.ok r) => .conv r.1 r.2.1 r.2.2
  | none =>
  match mTimeStepStart l with
  | some (.error u) => .convFail u
  | some (.ok r) => .tsStart r.1 r.2.1 r.2.2
  | none =>
  match mTimeStepSolutionTime l with
  | some (.error u) => .convFail u
  | some (.ok r) => .solTime r.1 r.2.1 r.2.2
  | none =>
  match mTimeStepOutput l with
  | some (.error u) => .convFail u
  | some (.ok r) => .output r.1 r.2
  | none =>
  match mTimeStepFinished l with
  | some (.error u) => .convFail u
  | some (.ok r) => .tsFinished r.1 r.2
  | none =>
  match mExecutionTime l with
  | some (.error u) => .convFail u
  | some (.ok t) => .exec t
  | none => .other

/-- True exactly on the execution-duration classification. -/
def Classified.isExec : Classified → Bool
  | .exec _ => true
  | _ => false

/-- True exactly on the assembly-duration classification. -/
def Classified.isAssembly : Classified → Bool
  | .assembly _ => true
  | _ => false

/-- The step index captured by a time-step-start classification. -/
def Classified.startIdx : Classified → Option Nat
  | .tsStart n _ _ => some n
  | _ => none

/-- The synthetic placeholder TimeStep created at the top of `parse_file`
(index 0, simulation time 0.0, unset step size). -/
def initTimeStep : TimeStep :=
  { uid := 0, number := 0, t := 0, dt := none, iterations := [],
    cpu_time := none, output_time := none, solution_time := none }

/-- The mutable state of the `parse_file` loop: the finalized TimeSteps
`tss`, the two Simulation-level scalars, the active TimeStep `ts`, the scalar
accumulators and pending convergence list, the line counter, and the ghost
fresh-uid counter for TimeStep allocations. -/
structure PState where
  tss : List TimeStep
  execution_time : Option ℚ
  mesh_read_time : Option ℚ
  ts : TimeStep
  assembly_time : Option ℚ
  dirichlet_bc_time : Option ℚ
  linear_solver_time : Option ℚ
  phase_field_parameter : Option ℚ
  component_convergence : List ComponentConvergence
  number_of_lines_read : Nat
  nextUid : Nat
deriving DecidableEq

/-- The loop state just before the first line is read. -/
def initState : PState :=
  { tss := [], execution_time := none, mesh_read_time := none,
    ts := initTimeStep, assembly_time := none, dirichlet_bc_time := none,
    linear_solver_time := none, phase_field_parameter := none,
    component_convergence := [], number_of_lines_read := 0, nextUid := 1 }

/-- Outcome of processing one line: continue with a new state, leave the
loop (the `break` of the time-step-start branch), or abort with a conversion
ValueError carrying the offending captured substring. -/
inductive StepOut where
  | cont (st : PState)
  | stop (st : PState)
  | err (u : List Char)
deriving DecidableEq

/-- The early-termination condition of the time-step-start branch, checked
against the index of the just-created TimeStep and the number of lines read
so far (the current line included). -/
def breakCondition (maximum_timesteps maximum_lines : Option Nat)
    (n linesRead : Nat) : Bool :=
  (match maximum_timesteps with
   | some limit => decide (n > limit)
   | none => false) ||
  (match maximum_lines with
   | some limit => decide (linesRead > limit)
   | none => false)

/-- The action the loop body takes for one classified line (the state already
has its line counter incremented). -/
def applyClassified (maximum_timesteps maximum_lines : Option Nat)
    (st : PState) : Classified → StepOut
  | .convFail u => .err u
  | .iter n t => .cont { st with
      ts := { st.ts with iterations := st.ts.iterations ++
        [{ number := n, assembly_time := st.assembly_time,
           dirichlet_bc_time := st.dirichlet_bc_time,
           linear_solver_time := st.linear_solver_time, cpu_time := t,
           phase_field_parameter := st.phase_field_parameter,
           component_convergence := st.component_convergence }] },
      assembly_time := none, dirichlet_bc_time := none,
      linear_solver_time := none, phase_field_parameter := none,
      component_convergence := [] }
  | .assembly t => .cont { st with assembly_time := some t }
  | .dirichlet t => .cont { st with dirichlet_bc_time := some t }
  | .linsolve t => .cont { st with linear_solver_time := some t }
  | .phase t => .cont { st with phase_field_parameter := some t }
  | .compConv n dx x rel => .cont { st with component_convergence :=
      st.component_convergence ++ [{ number := n, dx := dx, x := x, dx_relative := rel }] }
  | .conv dx x rel => .cont { st with component_convergence :=
      st.component_convergence ++ [{ number := 0, dx := dx, x := x, dx_relative := rel }] }
  | .tsStart n t dt =>
      let st' : PState := { st with
        tss := st.tss ++ [st.ts],
        ts := { uid := st.nextUid, number := n, t := t, dt := some dt,
                iterations := [], cpu_time := none, output_time := none,
                solution_time := none },
        nextUid := st.nextUid + 1 }
      if breakCondition maximum_timesteps maximum_lines n st.number_of_lines_read
      then .stop st' else .cont st'
  | .solTime _ t _ => .cont { st with ts := { st.ts with solution_time := some t } }
  | .output _ t => .cont { st with ts := { st.ts with output_time := some t } }
  | .tsFinished _ t => .cont { st with ts := { st.ts with cpu_time := some t } }
  | .exec t => .cont { st with execution_time := some t, tss := st.tss ++ [st.ts] }
  | .other => .cont st

/-- The optional preprocessing selected by the `petsc` flag:
`line.replace('[0] ', '')` removes every occurrence of the rank marker. -/
def stripZeroRank : List Char → List Char
  | '[' :: '0' :: ']' :: ' ' :: rest => stripZeroRank rest
  | c :: rest => c :: stripZeroRank rest
  | [] => []

/-- The line actually classified: the raw line, or the marker-stripped line
when the `petsc` flag is set. -/
def prep (petsc : Bool) (l : List Char) : List Char :=
  if petsc then stripZeroRank l else l

/-- One pass of the loop body of `parse_file` on one line: count the line,
preprocess, classify, act. -/
def processLine (maximum_timesteps maximum_lines : Option Nat) (petsc : Bool)
    (st : PState) (l : List Char) : StepOut :=
  applyClassified maximum_timesteps maximum_lines
    { st with number_of_lines_read := st.number_of_lines_read + 1 }
    (classify (prep petsc l))

/-- The `parse_file` loop over the list of lines of the input file; an error
is the uncaught conversion ValueError. -/
def runLines (maximum_timesteps maximum_lines : Option Nat) (petsc : Bool) :
    PState → List (List Char) → Except (List Char) PState
  | st, [] => .ok st
  | st, l :: ls =>
    match processLine maximum_timesteps maximum_lines petsc st l with
    | .cont st' => runLines maximum_timesteps maximum_lines petsc st' ls
    | .stop st' => .ok st'
    | .err u => .error u

/-- Like `runLines`, but defined only as long as every step continues: `some`
exactly when no step broke out of the loop or aborted. -/
def runCont (maximum_timesteps maximum_lines : Option Nat) (petsc : Bool) :
    PState → List (List Char) → Option PState
  | st, [] => some st
  | st, l :: ls =>
    match processLine maximum_timesteps maximum_lines petsc st l with
    | .cont st' => runCont maximum_timesteps maximum_lines petsc st' ls
    | _ => none

/-- The Simulation built from the final loop state (the `return` of
`parse_file`). -/
def finalize (st : PState) : Simulation :=
  { timesteps := st.tss, mesh_read_time := st.mesh_read_time,
    execution_time := st.execution_time }

/-- `parse_file`, over the list of lines of the input file. -/
def parse_file (lines : List (List Char))
    (maximum_timesteps maximum_lines : Option Nat) (petsc : Bool) :
    Except (List Char) Simulation :=
  (runLines maximum_timesteps maximum_lines petsc initState lines).map finalize

/-- One flattened row, as yielded by `Simulation.__iter__`: the union of the
Simulation-level dictionary, the TimeStep's, the Iteration's and the
ComponentConvergence's dictionaries.  All key paths are distinct, so the
dictionary union is faithfully a record; field names spell the prefixed key
paths of the source. -/
structure Row where
  execution_time : Option ℚ
  time_step_number : Nat
  time_step_t : ℚ
  time_step_dt : Option ℚ
  time_step_cpu_time : Option ℚ
  time_step_output_time : Option ℚ
  time_step_iteration_number : Nat
  time_step_iteration_assembly_time : Option ℚ
  time_step_iteration_dirichlet_bc_time : Option ℚ
  time_step_iteration_linear_solver_time : Option ℚ
  time_step_iteration_cpu_time : ℚ
  time_step_iteration_phase_field_parameter : Option ℚ
  cc_number : Nat
  cc_dx : ℚ
  cc_x : ℚ
  cc_dx_relative : ℚ
deriving DecidableEq

/-- The row emitted for one ComponentConvergence leaf of one Iteration of one
TimeStep. -/
def mkRow (s : Simulation) (t : TimeStep) (i : Iteration)
    (c : ComponentConvergence) : Row :=
  { execution_time := s.execution_time,
    time_step_number := t.number, time_step_t := t.t, time_step_dt := t.dt,
    time_step_cpu_time := t.cpu_time, time_step_output_time := t.output_time,
    time_step_iteration_number := i.number,
    time_step_iteration_assembly_time := i.assembly_time,
    time_step_iteration_dirichlet_bc_time := i.dirichlet_bc_time,
    time_step_iteration_linear_solver_time := i.linear_solver_time,
    time_step_iteration_cpu_time := i.cpu_time,
    time_step_iteration_phase_field_parameter := i.phase_field_parameter,
    cc_number := c.number, cc_dx := c.dx, cc_x := c.x,
    cc_dx_relative := c.dx_relative }

/-- `Simulation.__iter__`: one row per ComponentConvergence leaf, in
depth-first order over time steps, iterations and convergence records. -/
def Simulation.iter (s : Simulation) : List Row :=
  s.timesteps.flatMap (fun t =>
    t.iterations.flatMap (fun i =>
      i.component_convergence.map (fun c => mkRow s t i c)))

/-- Concrete log line: time-step start, index 1, time 0.1, step size 0.01. -/
def lineStep1 : List Char :=
  s2l "info: === Time stepping at step #1 and time 0.1 with step size 0.01"

/-- Concrete log line: time-step start, index 2, time 0.2, step size 0.01. -/
def lineStep2 : List Char :=
  s2l "info: === Time stepping at step #2 and time 0.2 with step size 0.01"

/-- Concrete log line: time-step start, index 5, time 0.5, step size 0.01. -/
def lineStep5 : List Char :=
  s2l "info: === Time stepping at step #5 and time 0.5 with step size 0.01"

/-- Concrete log line: iteration 1 timing, duration 0.05. -/
def lineIter1 : List Char := s2l "info: [time] Iteration #1 took 0.05 s"

/-- Concrete log line: iteration 2 timing, duration 0.3. -/
def lineIter2 : List Char := s2l "info: [time] Iteration #2 took 0.3 s"

/-- Concrete log line: run end, execution duration 1.5. -/
def lineExec : List Char := s2l "info: [time] Execution took 1.5 s"

/-- Concrete log line: run end, execution duration 2.0. -/
def lineExec2 : List Char := s2l "info: [time] Execution took 2.0 s"

/-- Concrete log line matching the assembly grammar whose capture `2s` is not
a number (the capture class admits the letter s). -/
def lineAssemblyBad : List Char := s2l "info: [time] Assembly took 2s s"

/-- Concrete log line: assembly duration 0.25. -/
def lineAssembly : List Char := s2l "info: [time] Assembly took 0.25 s"

/-- Concrete log line: Dirichlet BC duration 0.2. -/
def lineDirichlet : List Char :=
  s2l "info: [time] Applying Dirichlet BCs took 0.2 s"

/-- Concrete log line: a time-step-start line containing the parallel rank
marker in its step-size field. -/
def lineTrap : List Char :=
  s2l "info: === Time stepping at step #1 and time 0.1 with step size [0] 2"

/-- The Iteration parsed from `lineIter1` with no pending accumulators. -/
def c1Iter : Iteration :=
  { number := 1, assembly_time := none, dirichlet_bc_time := none,
    linear_solver_time := none, cpu_time := mkRat 1 20,
    phase_field_parameter := none, component_convergence := [] }

/-- The TimeStep parsed from `lineStep1` holding the Iteration of
`lineIter1`. -/
def c1TimeStep : TimeStep :=
  { uid := 1, number := 1, t := mkRat 1 10, dt := some (mkRat 1 100),
    iterations := [c1Iter], cpu_time := none, output_time := none,
    solution_time := none }

/-- The loop state after processing `lineIter1` from the initial state (the
Iteration attaches to the still-active placeholder). -/
def c5St1 : PState :=
  { initState with
    number_of_lines_read := 1,
    ts := { initTimeStep with iterations := [c1Iter] } }

/-- The TimeStep parsed from `lineStep1`, before any iteration attaches. -/
def tsStep1 : TimeStep :=
  { uid := 1, number := 1, t := mkRat 1 10, dt := some (mkRat 1 100),
    iterations := [], cpu_time := none, output_time := none,
    solution_time := none }

/-- The TimeStep parsed from `lineStep2`, before any iteration attaches. -/
def tsStep2 : TimeStep :=
  { uid := 2, number := 2, t := mkRat 1 5, dt := some (mkRat 1 100),
    iterations := [], cpu_time := none, output_time := none,
    solution_time := none }

/-- Simulation returned for the log `lineStep1, lineStep2, lineExec`. -/
def c3Sim : Simulation :=
  { timesteps := [initTimeStep, tsStep1, tsStep2], mesh_read_time := none,
    execution_time := some (mkRat 3 2) }

/-- Simulation returned for the log `lineStep1, lineStep2` under a
maximum-timestep limit of 1. -/
def c4Sim : Simulation :=
  { timesteps := [initTimeStep, tsStep1], mesh_read_time := none,
    execution_time := none }

/-- Simulation returned for the single-line log `lineExec`. -/
def c2Sim : Simulation :=
  { timesteps := [initTimeStep], mesh_read_time := none,
    execution_time := some (mkRat 3 2) }

/-- The loop state after processing `lineStep1` from the initial state. -/
def c6State : PState :=
  { tss := [initTimeStep], execution_time := none, mesh_read_time := none,
    ts := { uid := 1, number := 1, t := mkRat 1 10, dt := some (mkRat 1 100),
            iterations := [], cpu_time := none, output_time := none,
            solution_time := none },
    assembly_time := none, dirichlet_bc_time := none,
    linear_solver_time := none, phase_field_parameter := none,
    component_convergence := [], number_of_lines_read := 1, nextUid := 2 }

/-- Structural description of every continuing step of the loop: a line
either leaves the finalized list and the identity and index of the active
TimeStep untouched, or is an execution-duration line that appends the active
TimeStep and keeps it active, or is a time-step-start line that appends the
previously active TimeStep, activates a freshly allocated one with the
captured index, and passes the early-termination check. -/
theorem processLine_cont_cases (maxT maxL : Option Nat) (p : Bool)
    (st : PState) (l : List Char) (st' : PState)
    (h : processLine maxT maxL p st l = .cont st') :
    st'.number_of_lines_read = st.number_of_lines_read + 1 ∧
    (((classify (prep p l)).startIdx = none ∧ st'.tss = st.tss ∧
        st'.ts.uid = st.ts.uid ∧ st'.ts.number = st.ts.number ∧
        st'.nextUid = st.nextUid) ∨
     ((classify (prep p l)).startIdx = none ∧
        (classify (prep p l)).isExec = true ∧
        st'.tss = st.tss ++ [st.ts] ∧ st'.ts = st.ts ∧
        st'.nextUid = st.nextUid) ∨
     (∃ n, (classify (prep p l)).startIdx = some n ∧
        st'.tss = st.tss ++ [st.ts] ∧ st'.ts.number = n ∧
        st'.ts.uid = st.nextUid ∧ st'.nextUid = st.nextUid + 1 ∧
        breakCondition maxT maxL n (st.number_of_lines_read + 1) = false)) := by
  unfold processLine at h
  cases hcl : classify (prep p l) <;> rw [hcl] at h <;>
    simp only [applyClassified] at h
  case iter n t =>
    simp only [StepOut.cont.injEq] at h
    subst h
    exact ⟨rfl, Or.inl ⟨rfl, rfl, rfl, rfl, rfl⟩⟩
  case assembly t =>
    simp only [StepOut.cont.injEq] at h
    subst h
    exact ⟨rfl, Or.inl ⟨rfl, rfl, rfl, rfl, rfl⟩⟩
  case dirichlet t =>
    simp only [StepOut.cont.injEq] at h
    subst h
    exact ⟨rfl, Or.inl ⟨rfl, rfl, rfl, rfl, rfl⟩⟩
  case linsolve t =>
    simp only [StepOut.cont.injEq] at h
    subst h
    exact ⟨rfl, Or.inl ⟨rfl, rfl, rfl, rfl, rfl⟩⟩
  case phase t =>
    simp only [StepOut.cont.injEq] at h
    subst h
    exact ⟨rfl, Or.inl ⟨rfl, rfl, rfl, rfl, rfl⟩⟩
  case compConv n dx x rel =>
    simp only [StepOut.cont.injEq] at h
    subst h
    exact ⟨rfl, Or.inl ⟨rfl, rfl, rfl, rfl, rfl⟩⟩
  case conv dx x rel =>
    simp only [StepOut.cont.injEq] at h
    subst h
    exact ⟨rfl, Or.inl ⟨rfl, rfl, rfl, rfl, rfl⟩⟩
  case tsStart n t dt =>
    split at h
    · exact absurd h (by simp)
    · simp only [StepOut.cont.injEq] at h
      subst h
      refine ⟨rfl, Or.inr (Or.inr ⟨n, rfl, rfl, rfl, rfl, rfl, ?_⟩)⟩
      simp_all
  case solTime n t n2 =>
    simp only [StepOut.cont.injEq] at h
    subst h
    exact ⟨rfl, Or.inl ⟨rfl, rfl, rfl, rfl, rfl⟩⟩
  case output n t =>
    simp only [StepOut.cont.injEq] at h
    subst h
    exact ⟨rfl, Or.inl ⟨rfl, rfl, rfl, rfl, rfl⟩⟩
  case tsFinished n t =>
    simp only [StepOut.cont.injEq] at h
    subst h
    exact ⟨rfl, Or.inl ⟨rfl, rfl, rfl, rfl, rfl⟩⟩
  case exec t =>
    simp only [StepOut.cont.injEq] at h
    subst h
    exact ⟨rfl, Or.inr (Or.inl ⟨rfl, rfl, rfl, rfl, rfl⟩)⟩
  case other =>
    simp only [StepOut.cont.injEq] at h
    subst h
    exact ⟨rfl, Or.inl ⟨rfl, rfl, rfl, rfl, rfl⟩⟩
  case convFail u =>
    exact absurd h (by simp)

/-- Structural description of every loop-leaving step: only a
time-step-start line whose early-termination check fires can leave the loop,
and it does so after appending the previously active TimeStep but with the
freshly created TimeStep still active (hence excluded from the result). -/
theorem processLine_stop_cases (maxT maxL : Option Nat) (p : Bool)
    (st : PState) (l : List Char) (st' : PState)
    (h : processLine maxT maxL p st l = .stop st') :
    st'.number_of_lines_read = st.number_of_lines_read + 1 ∧
    ∃ n, (classify (prep p l)).startIdx = some n ∧
      st'.tss = st.tss ++ [st.ts] ∧ st'.ts.number = n ∧
      st'.ts.uid = st.nextUid ∧ st'.nextUid = st.nextUid + 1 ∧
      breakCondition maxT maxL n (st.number_of_lines_read + 1) = true := by
  unfold processLine at h
  cases hcl : classify (prep p l) <;> rw [hcl] at h <;>
    simp only [applyClassified] at h <;> try exact absurd h (by simp)
  case tsStart n t dt =>
    split at h
    · simp only [StepOut.stop.injEq] at h
      subst h
      refine ⟨rfl, n, rfl, rfl, rfl, rfl, rfl, by assumption⟩
    · exact absurd h (by simp)

/-- Induction principle for the loop: an invariant threaded through the
continuing steps, turned into the conclusion at a loop break or at the end of
the input, holds of every successful final state. -/
theorem runLines_rect (maxT maxL : Option Nat) (p : Bool)
    (Inv : PState → List (List Char) → Prop) (C : PState → Prop)
    (hc : ∀ st l rest st', processLine maxT maxL p st l = .cont st' →
        Inv st (l :: rest) → Inv st' rest)
    (hs : ∀ st l rest st', processLine maxT maxL p st l = .stop st' →
        Inv st (l :: rest) → C st')
    (he : ∀ st, Inv st [] → C st) :
    ∀ lines st stF, runLines maxT maxL p st lines = .ok stF →
      Inv st lines → C stF := by
  intro lines
  induction lines with
  | nil =>
    intro st stF h hI
    unfold runLines at h
    simp only [Except.ok.injEq] at h
    subst h
    exact he st hI
  | cons l ls ih =>
    intro st stF h hI
    unfold runLines at h
    cases hp : processLine maxT maxL p st l <;> rw [hp] at h
    case cont st' => exact ih st' stF h (hc st l ls st' hp hI)
    case stop st' =>
      simp only [Except.ok.injEq] at h
      subst h
      exact hs st l ls st' hp hI
    case err u => exact absurd h (by simp)

/-- A fully continuing run over a first chunk of lines composes with the
loop over the rest. -/
theorem runCont_append (maxT maxL : Option Nat) (p : Bool) :
    ∀ (q : List (List Char)) (st st' : PState),
      runCont maxT maxL p st q = some st' →
      ∀ r, runLines maxT maxL p st (q ++ r) = runLines maxT maxL p st' r := by
  intro q
  induction q with
  | nil =>
    intro st st' h r
    unfold runCont at h
    simp only [Option.some.injEq] at h
    subst h
    rfl
  | cons l ls ih =>
    intro st st' h r
    unfold runCont at h
    cases hp : processLine maxT maxL p st l <;> rw [hp] at h
    case cont st1 =>
      have := ih st1 st' h r
      simpa [runLines, hp] using this
    case stop st1 => exact absurd h (by simp)
    case err u => exact absurd h (by simp)

/-- A fully continuing run over the whole input is a successful run. -/
theorem runCont_runLines (maxT maxL : Option Nat) (p : Bool)
    (q : List (List Char)) (st st' : PState)
    (h : runCont maxT maxL p st q = some st') :
    runLines maxT maxL p st q = .ok st' := by
  have := runCont_append maxT maxL p q st st' h []
  simpa using this

/-- Stripping the rank marker from a marker-prefixed line gives the result
of stripping the rest of the line. -/
theorem stripZeroRank_cons_marker (l : List Char) :
    stripZeroRank ('[' :: '0' :: ']' :: ' ' :: l) = stripZeroRank l := rfl

/-- A nondecreasing chain stays a chain when a large enough element is
appended after its last element. -/
theorem chain_le_append_pair {l : List Nat} {a b : Nat}
    (h : List.Chain' (· ≤ ·) (l ++ [a])) (hab : a ≤ b) :
    List.Chain' (· ≤ ·) ((l ++ [a]) ++ [b]) := by
  rw [List.chain'_append]
  refine ⟨h, List.chain'_singleton b, ?_⟩
  intro x hx y hy
  simp only [List.getLast?_concat, Option.mem_def, Option.some.injEq] at hx
  simp only [List.head?_cons, Option.mem_def, Option.some.injEq] at hy
  subst hx
  subst hy
  exact hab

/-- A chain with its last element removed is still a chain. -/
theorem chain_le_of_append {l : List Nat} {a : Nat}
    (h : List.Chain' (· ≤ ·) (l ++ [a])) : List.Chain' (· ≤ ·) l :=
  (List.chain'_append.mp h).1

/-- The assembly-time accumulator, once absent, stays absent across any
continuing step whose line is not classified as an assembly-duration line
(the iteration boundary itself re-clears it). -/
theorem assembly_none_step (maxT maxL : Option Nat) (p : Bool)
    (st : PState) (l : List Char) (st' : PState)
    (h : processLine maxT maxL p st l = .cont st')
    (hna : (classify (prep p l)).isAssembly = false)
    (h0 : st.assembly_time = none) : st'.assembly_time = none := by
  unfold processLine at h
  cases hcl : classify (prep p l) <;> rw [hcl] at h <;>
    simp only [applyClassified] at h
  case assembly t =>
    rw [hcl] at hna
    exact absurd hna (by simp [Classified.isAssembly])
  case tsStart n t dt =>
    split at h
    · exact absurd h (by simp)
    · simp only [StepOut.cont.injEq] at h
      subst h
      exact h0
  case convFail u => exact absurd h (by simp)
  all_goals simp only [StepOut.cont.injEq] at h
  all_goals subst h
  all_goals first
    | rfl
    | exact h0

/-- The assembly-time accumulator stays absent across a continuing run
containing no assembly-duration line. -/
theorem assembly_none_runCont (maxT maxL : Option Nat) (p : Bool) :
    ∀ (q : List (List Char)) (st st' : PState),
      runCont maxT maxL p st q = some st' →
      (∀ l ∈ q, (classify (prep p l)).isAssembly = false) →
      st.assembly_time = none → st'.assembly_time = none := by
  intro q
  induction q with
  | nil =>
    intro st st' h _ h0
    unfold runCont at h
    simp only [Option.some.injEq] at h
    subst h
    exact h0
  | cons l ls ih =>
    intro st st' h hq h0
    unfold runCont at h
    cases hp : processLine maxT maxL p st l <;> rw [hp] at h
    case cont st1 =>
      exact ih st1 st' h (fun x hx => hq x (List.mem_cons_of_mem l hx))
        (assembly_none_step maxT maxL p st l st1 hp
          (hq l (List.mem_cons_self l ls)) h0)
    case stop st1 => exact absurd h (by simp)
    case err u => exact absurd h (by simp)

/-- Freshness of active-TimeStep identity: across a continuing run with no
execution-duration line, every finalized TimeStep keeps a uid strictly below
the allocation counter and distinct from the active TimeStep's uid. -/
theorem uid_fresh_runCont (maxT maxL : Option Nat) (p : Bool) :
    ∀ (q : List (List Char)) (st st' : PState),
      runCont maxT maxL p st q = some st' →
      (∀ l ∈ q, (classify (prep p l)).isExec = false) →
      ((∀ t ∈ st.tss, t.uid < st.nextUid) ∧ st.ts.uid < st.nextUid ∧
        (∀ t ∈ st.tss, t.uid ≠ st.ts.uid)) →
      ((∀ t ∈ st'.tss, t.uid < st'.nextUid) ∧ st'.ts.uid < st'.nextUid ∧
        (∀ t ∈ st'.tss, t.uid ≠ st'.ts.uid)) := by
  intro q
  induction q with
  | nil =>
    intro st st' h _ hI
    unfold runCont at h
    simp only [Option.some.injEq] at h
    subst h
    exact hI
  | cons l ls ih =>
    intro st st' h hq hI
    unfold runCont at h
    cases hp : processLine maxT maxL p st l <;> rw [hp] at h
    case stop st1 => exact absurd h (by simp)
    case err u => exact absurd h (by simp)
    case cont st1 =>
      refine ih st1 st' h (fun x hx => hq x (List.mem_cons_of_mem l hx)) ?_
      obtain ⟨-, hcase⟩ := processLine_cont_cases maxT maxL p st l st1 hp
      rcases hcase with ⟨-, htss, huid, -, hnu⟩ | ⟨-, hex, -, -, -⟩ |
        ⟨n, -, htss, -, huid, hnu, -⟩
      · rw [htss, huid, hnu]
        exact hI
      · rw [hq l (List.mem_cons_self l ls)] at hex
        exact absurd hex (by simp)
      · obtain ⟨hbound, hts, hne⟩ := hI
        refine ⟨?_, ?_, ?_⟩
        · intro t ht
          rw [htss] at ht
          rw [hnu]
          rcases List.mem_append.mp ht with h1 | h1
          · exact Nat.lt_succ_of_lt (hbound t h1)
          · rw [List.mem_singleton.mp h1]
            exact Nat.lt_succ_of_lt hts
        · rw [huid, hnu]
          exact Nat.lt_succ_self st.nextUid
        · intro t ht
          rw [htss] at ht
          rw [huid]
          rcases List.mem_append.mp ht with h1 | h1
          · exact Nat.ne_of_lt (hbound t h1)
          · rw [List.mem_singleton.mp h1]
            exact Nat.ne_of_lt hts

/-- C1 (counterexample): on the two-line log of the claim (time-step start
with index 1, then iteration timing with index 1) `parse_file` does NOT
return one TimeStep with number 1 holding one Iteration; it returns exactly
one TimeStep, namely the synthetic placeholder, with number 0 and no
iterations (TimeStep 1 is dropped because no run-end line finalizes it). -/
theorem C1_counterexample :
    parse_file [lineStep1, lineIter1] none none false =
      .ok { timesteps := [initTimeStep], mesh_read_time := none,
            execution_time := none } ∧
    initTimeStep.number = 0 ∧ initTimeStep.iterations = [] := by
  refine ⟨by decide, rfl, rfl⟩

/-- C1 (amended): on the two-line log of the claim, the single returned
TimeStep is the placeholder (number 0, no iterations); appending a run-end
line makes `parse_file` return the placeholder followed by TimeStep number 1
containing exactly one Iteration with number 1 and cpu_time 0.05, whose
assembly, Dirichlet, linear-solver and phase-field fields are all absent. -/
theorem C1_amended :
    parse_file [lineStep1, lineIter1, lineExec] none none false =
      .ok { timesteps := [initTimeStep, c1TimeStep], mesh_read_time := none,
            execution_time := some (mkRat 3 2) } ∧
    c1TimeStep.number = 1 ∧ c1TimeStep.iterations = [c1Iter] ∧
    c1Iter.number = 1 ∧ c1Iter.cpu_time = mkRat 1 20 ∧
    c1Iter.assembly_time = none ∧ c1Iter.dirichlet_bc_time = none ∧
    c1Iter.linear_solver_time = none ∧ c1Iter.phase_field_parameter = none := by
  refine ⟨by decide, rfl, rfl, rfl, rfl, rfl, rfl, rfl, rfl⟩

/-- C2 (counterexample): the synthetic placeholder TimeStep is not
discarded: on a log consisting of a single run-end line, the returned
Simulation contains exactly the placeholder (allocation uid 0, number 0,
unset step size). -/
theorem C2_counterexample :
    parse_file [lineExec] none none false =
      .ok { timesteps := [initTimeStep], mesh_read_time := none,
            execution_time := some (mkRat 3 2) } ∧
    initTimeStep.uid = 0 ∧ initTimeStep.number = 0 ∧ initTimeStep.dt = none := by
  refine ⟨by decide, rfl, rfl, rfl⟩

/-- C3 (counterexample): emitted TimeStep numbers need not be
non-decreasing: a log whose time-step-start indices come out of order (5,
then 2) yields the emission sequence of numbers 0, 5, 2. -/
theorem C3_counterexample :
    (parse_file [lineStep5, lineStep2, lineExec] none none false).map
        (fun s => s.timesteps.map TimeStep.number) = .ok [0, 5, 2] ∧
    ¬ List.Chain' (· ≤ ·) [0, 5, 2] := by
  refine ⟨by decide, ?_⟩
  intro h
  rw [List.chain'_cons, List.chain'_cons] at h
  omega

/-- C7: flattening a Simulation yields exactly one row per
ComponentConvergence leaf: the number of rows is the sum, over all time steps
and iterations, of their convergence-record counts (so a TimeStep or
Iteration with zero leaves contributes zero rows, whatever its other fields
hold). -/
theorem C7_flatten_rows (s : Simulation) :
    (Simulation.iter s).length =
      (s.timesteps.map (fun t =>
        (t.iterations.map (fun i => i.component_convergence.length)).sum)).sum := by
  unfold Simulation.iter
  simp [List.length_flatMap, Function.comp_def]

/-- C8 (counterexample): prefix-stripping under the `petsc` flag is not
equivalent to removing a leading marker, because the source removes every
occurrence of the marker: on a time-step-start line carrying the marker
inside its step-size field, the flagged run of the marker-prefixed line
parses (all markers removed), while the unflagged run of the line with only
the leading marker removed aborts with a conversion error. -/
theorem C8_counterexample :
    processLine none none true initState ('[' :: '0' :: ']' :: ' ' :: lineTrap) ≠
      processLine none none false initState lineTrap := by
  decide

/-- C8 (amended): for a line in which the rank marker does not occur
(marker removal is the identity on it), running the parser step with the
`petsc` flag on the marker-prefixed line produces exactly the same
classification and state update as running it without the flag on the
unprefixed line. -/
theorem C8_amended (maxT maxL : Option Nat) (st : PState) (l : List Char)
    (h : stripZeroRank l = l) :
    processLine maxT maxL true st ('[' :: '0' :: ']' :: ' ' :: l) =
      processLine maxT maxL false st l := by
  simp only [processLine, prep, if_true, if_false, ite_self,
    stripZeroRank_cons_marker, h]

/-- C8 (witness). -/
theorem C8_witness :
    stripZeroRank lineAssembly = lineAssembly ∧
    processLine none none true initState
        ('[' :: '0' :: ']' :: ' ' :: lineAssembly) =
      processLine none none false initState lineAssembly :=
  ⟨by decide, C8_amended none none initState lineAssembly (by decide)⟩

/-- C9 (counterexample): a matched grammar whose capture fails numeric
conversion aborts parsing, but the reported payload is only the offending
captured substring (the uncaught ValueError), which is neither the offending
line nor big enough to contain it, and names no grammar. -/
theorem C9_counterexample :
    parse_file [lineAssemblyBad] none none false = .error (s2l "2s") ∧
    s2l "2s" ≠ lineAssemblyBad ∧
    (s2l "2s").length < lineAssemblyBad.length := by
  refine ⟨by decide, by decide, by decide⟩

/-- C9 (amended): numeric conversion failure on an already-matched grammar
is fatal: the step yields an error carrying the offending captured substring,
the loop aborts at that line ignoring all later lines, and `parse_file`
propagates the error (no Simulation is produced); for the assembly grammar
the error payload is exactly the capture that failed conversion. -/
theorem C9_amended :
    (∀ (maxT maxL : Option Nat) (p : Bool) (st : PState) (l : List Char)
        (rest : List (List Char)) (u : List Char),
        processLine maxT maxL p st l = .err u →
        runLines maxT maxL p st (l :: rest) = .error u) ∧
    (∀ (lines : List (List Char)) (maxT maxL : Option Nat) (p : Bool)
        (u : List Char),
        runLines maxT maxL p initState lines = .error u →
        parse_file lines maxT maxL p = .error u) ∧
    (∀ (l g : List Char), reAssemblyTimeShape l = some g → pyFloat g = none →
        mAssemblyTime l = some (.error g)) := by
  refine ⟨?_, ?_, ?_⟩
  · intro maxT maxL p st l rest u h
    unfold runLines
    rw [h]
  · intro lines maxT maxL p u h
    unfold parse_file
    rw [h]
    rfl
  · intro l g hs hf
    unfold mAssemblyTime
    rw [hs]
    simp [convFloat, hf]

/-- C9 (witness). -/
theorem C9_witness :
    runLines none none false initState [lineAssemblyBad, lineExec] =
      .error (s2l "2s") ∧
    parse_file [lineAssemblyBad, lineExec] none none false =
      .error (s2l "2s") ∧
    mAssemblyTime lineAssemblyBad = some (.error (s2l "2s")) := by
  have h1 := C9_amended.1 none none false initState lineAssemblyBad [lineExec]
    (s2l "2s") (by decide)
  exact ⟨h1, C9_amended.2.1 [lineAssemblyBad, lineExec] none none false
    (s2l "2s") h1, C9_amended.2.2 lineAssemblyBad (s2l "2s") (by decide)
    (by decide)⟩

/-- C10: processing an execution-duration line appends the active TimeStep
to the result without replacing or clearing the active-TimeStep variable, so
a later execution-duration (or time-step-start) line appends the very same
TimeStep object again: on a log of two run-end lines the returned timesteps
list holds the same allocation (uid 0, the placeholder) twice. -/
theorem C10_duplicate_append :
    (∀ (maxT maxL : Option Nat) (p : Bool) (st : PState) (l : List Char)
        (v : ℚ), classify (prep p l) = .exec v →
        ∃ st', processLine maxT maxL p st l = .cont st' ∧
          st'.ts = st.ts ∧ st'.tss = st.tss ++ [st.ts]) ∧
    (parse_file [lineExec, lineExec2] none none false).map
        (fun s => s.timesteps.map TimeStep.uid) = .ok [0, 0] ∧
    parse_file [lineExec, lineExec2] none none false =
      .ok { timesteps := [initTimeStep, initTimeStep], mesh_read_time := none,
            execution_time := some 2 } := by
  refine ⟨?_, by decide, by decide⟩
  intro maxT maxL p st l v hcl
  refine ⟨{ { st with number_of_lines_read := st.number_of_lines_read + 1 } with
            execution_time := some v,
            tss := st.tss ++ [st.ts] }, ?_, rfl, rfl⟩
  unfold processLine
  rw [hcl]
  rfl

/-- C10 (witness). -/
theorem C10_witness :
    ∃ st', processLine none none false initState lineExec = .cont st' ∧
      st'.ts = initState.ts ∧ st'.tss = initState.tss ++ [initState.ts] :=
  C10_duplicate_append.1 none none false initState lineExec (mkRat 3 2)
    (by decide)

/-- C2 (amended): the synthetic placeholder is never discarded; it is always
the first TimeStep finalized: for every input on which `parse_file`
succeeds, the returned timesteps list is either empty or begins with the
placeholder allocation (uid 0, number 0). -/
theorem C2_amended (lines : List (List Char)) (maxT maxL : Option Nat)
    (p : Bool) (sim : Simulation)
    (h : parse_file lines maxT maxL p = .ok sim) :
    sim.timesteps = [] ∨
      ∃ hd tl, sim.timesteps = hd :: tl ∧ hd.uid = 0 ∧ hd.number = 0 := by
  unfold parse_file at h
  cases hr : runLines maxT maxL p initState lines <;> rw [hr] at h
  case error u => exact absurd h (by simp [Except.map])
  case ok stF =>
    simp only [Except.map, Except.ok.injEq] at h
    subst h
    show stF.tss = [] ∨ ∃ hd tl, stF.tss = hd :: tl ∧ hd.uid = 0 ∧ hd.number = 0
    refine runLines_rect maxT maxL p
      (fun st _ => (st.tss = [] ∧ st.ts.uid = 0 ∧ st.ts.number = 0) ∨
        ∃ hd tl, st.tss = hd :: tl ∧ hd.uid = 0 ∧ hd.number = 0)
      (fun st => st.tss = [] ∨
        ∃ hd tl, st.tss = hd :: tl ∧ hd.uid = 0 ∧ hd.number = 0)
      ?_ ?_ ?_ lines initState stF hr (Or.inl ⟨rfl, rfl, rfl⟩)
    · intro st l rest st' hp hI
      obtain ⟨-, hcase⟩ := processLine_cont_cases maxT maxL p st l st' hp
      rcases hcase with ⟨-, htss, huid, hnum, -⟩ | ⟨-, -, htss, hts, -⟩ |
        ⟨n, -, htss, -, -, -, -⟩
      · rw [htss, huid, hnum]
        exact hI
      · rcases hI with ⟨h0, hu, hn⟩ | ⟨hd, tl, he, hu, hn⟩
        · exact Or.inr ⟨st.ts, [], by rw [htss, h0]; rfl, hu, hn⟩
        · exact Or.inr ⟨hd, tl ++ [st.ts], by rw [htss, he]; rfl, hu, hn⟩
      · rcases hI with ⟨h0, hu, hn⟩ | ⟨hd, tl, he, hu, hn⟩
        · exact Or.inr ⟨st.ts, [], by rw [htss, h0]; rfl, hu, hn⟩
        · exact Or.inr ⟨hd, tl ++ [st.ts], by rw [htss, he]; rfl, hu, hn⟩
    · intro st l rest st' hp hI
      obtain ⟨-, n, -, htss, -, -, -, -⟩ :=
        processLine_stop_cases maxT maxL p st l st' hp
      rcases hI with ⟨h0, hu, hn⟩ | ⟨hd, tl, he, hu, hn⟩
      · exact Or.inr ⟨st.ts, [], by rw [htss, h0]; rfl, hu, hn⟩
      · exact Or.inr ⟨hd, tl ++ [st.ts], by rw [htss, he]; rfl, hu, hn⟩
    · intro st hI
      rcases hI with ⟨h0, -, -⟩ | hne
      · exact Or.inl h0
      · exact Or.inr hne

/-- C2 (witness). -/
theorem C2_witness :
    c2Sim.timesteps = [] ∨
      ∃ hd tl, c2Sim.timesteps = hd :: tl ∧ hd.uid = 0 ∧ hd.number = 0 :=
  C2_amended [lineExec] none none false c2Sim (by decide)

/-- Consing a line with no time-step-start classification leaves the list of
captured start indices unchanged. -/
theorem filterMap_startIdx_cons_none {p : Bool} {l : List Char}
    (rest : List (List Char))
    (h : (classify (prep p l)).startIdx = none) :
    (l :: rest).filterMap (fun x => (classify (prep p x)).startIdx) =
      rest.filterMap (fun x => (classify (prep p x)).startIdx) := by
  simp only [List.filterMap_cons, h]

/-- Consing a time-step-start line prepends its captured index to the list
of captured start indices. -/
theorem filterMap_startIdx_cons_some {p : Bool} {l : List Char} {n : Nat}
    (rest : List (List Char))
    (h : (classify (prep p l)).startIdx = some n) :
    (l :: rest).filterMap (fun x => (classify (prep p x)).startIdx) =
      n :: rest.filterMap (fun x => (classify (prep p x)).startIdx) := by
  simp only [List.filterMap_cons, h]

/-- C3 (amended): whenever the step indices captured from the
time-step-start lines appear in non-decreasing order in the log, the
TimeStep numbers of the returned Simulation are non-decreasing in emission
order (the leading placeholder number 0 is below every index). -/
theorem C3_amended (lines : List (List Char)) (maxT maxL : Option Nat)
    (p : Bool) (sim : Simulation)
    (h : parse_file lines maxT maxL p = .ok sim)
    (hmono : List.Chain' (· ≤ ·)
      (lines.filterMap (fun l => (classify (prep p l)).startIdx))) :
    List.Chain' (· ≤ ·) (sim.timesteps.map TimeStep.number) := by
  unfold parse_file at h
  cases hr : runLines maxT maxL p initState lines <;> rw [hr] at h
  case error u => exact absurd h (by simp [Except.map])
  case ok stF =>
    simp only [Except.map, Except.ok.injEq] at h
    subst h
    show List.Chain' (· ≤ ·) (stF.tss.map TimeStep.number)
    refine runLines_rect maxT maxL p
      (fun st rest =>
        List.Chain' (· ≤ ·) (st.tss.map TimeStep.number ++ [st.ts.number]) ∧
        List.Chain' (· ≤ ·) (st.ts.number ::
          rest.filterMap (fun l => (classify (prep p l)).startIdx)))
      (fun st => List.Chain' (· ≤ ·) (st.tss.map TimeStep.number))
      ?_ ?_ ?_ lines initState stF hr
      ⟨List.chain'_singleton initState.ts.number,
        List.chain'_cons'.mpr ⟨fun y _ => Nat.zero_le y, hmono⟩⟩
    · intro st l rest st' hp hI
      obtain ⟨hI1, hI2⟩ := hI
      obtain ⟨-, hcase⟩ := processLine_cont_cases maxT maxL p st l st' hp
      rcases hcase with ⟨hnone, htss, -, hnum, -⟩ | ⟨hnone, -, htss, hts, -⟩ |
        ⟨n, hsome, htss, hnum, -, -, -⟩
      · rw [htss, hnum]
        exact ⟨hI1, by rwa [filterMap_startIdx_cons_none rest hnone] at hI2⟩
      · rw [htss, hts, List.map_append]
        refine ⟨chain_le_append_pair hI1 (le_refl st.ts.number), ?_⟩
        rwa [filterMap_startIdx_cons_none rest hnone] at hI2
      · rw [filterMap_startIdx_cons_some rest hsome, List.chain'_cons] at hI2
        rw [htss, hnum, List.map_append]
        exact ⟨chain_le_append_pair hI1 hI2.1, hI2.2⟩
    · intro st l rest st' hp hI
      obtain ⟨-, n, -, htss, -, -, -, -⟩ :=
        processLine_stop_cases maxT maxL p st l st' hp
      rw [htss, List.map_append]
      exact hI.1
    · intro st hI
      exact chain_le_of_append hI.1

/-- C3 (witness). -/
theorem C3_witness :
    List.Chain' (· ≤ ·) (c3Sim.timesteps.map TimeStep.number) := by
  refine C3_amended [lineStep1, lineStep2, lineExec] none none false c3Sim
    (by decide) ?_
  have he : [lineStep1, lineStep2, lineExec].filterMap
      (fun l => (classify (prep false l)).startIdx) = [1, 2] := by decide
  rw [he]
  exact List.chain'_cons.mpr ⟨by omega, List.chain'_singleton 2⟩

/-- C4: under a maximum-timestep limit no returned TimeStep exceeds the
limit; and both limits are checked only at time-step-start boundaries: when
the newly parsed step index exceeds the limit or the line count already
exceeds the line limit, parsing stops at that line (all later lines are
ignored), the previously active TimeStep is finalized, and the just-started
TimeStep is excluded from the result. -/
theorem C4_limits :
    (∀ (lines : List (List Char)) (limit : Nat) (maxL : Option Nat) (p : Bool)
        (sim : Simulation),
        parse_file lines (some limit) maxL p = .ok sim →
        ∀ tstep ∈ sim.timesteps, tstep.number ≤ limit) ∧
    (∀ (front : List (List Char)) (l : List Char) (rest : List (List Char))
        (maxT maxL : Option Nat) (p : Bool) (st : PState) (n : Nat) (t dt : ℚ),
        runCont maxT maxL p initState front = some st →
        classify (prep p l) = .tsStart n t dt →
        breakCondition maxT maxL n (st.number_of_lines_read + 1) = true →
        parse_file (front ++ l :: rest) maxT maxL p =
          .ok { timesteps := st.tss ++ [st.ts],
                mesh_read_time := st.mesh_read_time,
                execution_time := st.execution_time }) ∧
    (∀ (maxT maxL : Option Nat) (p : Bool) (st st' : PState) (l : List Char),
        processLine maxT maxL p st l = .stop st' →
        ∃ n, (classify (prep p l)).startIdx = some n ∧
          breakCondition maxT maxL n (st.number_of_lines_read + 1) = true) := by
  refine ⟨?_, ?_, ?_⟩
  · intro lines limit maxL p sim h
    unfold parse_file at h
    cases hr : runLines (some limit) maxL p initState lines <;> rw [hr] at h
    case error u => exact absurd h (by simp [Except.map])
    case ok stF =>
      simp only [Except.map, Except.ok.injEq] at h
      subst h
      show ∀ tstep ∈ stF.tss, tstep.number ≤ limit
      refine runLines_rect (some limit) maxL p
        (fun st _ => (∀ tstep ∈ st.tss, tstep.number ≤ limit) ∧
          st.ts.number ≤ limit)
        (fun st => ∀ tstep ∈ st.tss, tstep.number ≤ limit)
        ?_ ?_ ?_ lines initState stF hr ⟨by simp [initState], Nat.zero_le limit⟩
      · intro st l rest st' hp hI
        obtain ⟨-, hcase⟩ := processLine_cont_cases (some limit) maxL p st l st' hp
        rcases hcase with ⟨-, htss, -, hnum, -⟩ | ⟨-, -, htss, hts, -⟩ |
          ⟨n, -, htss, hnum, -, -, hbc⟩
        · rw [htss, hnum]
          exact hI
        · rw [htss, hts]
          refine ⟨fun tstep ht => ?_, hI.2⟩
          rcases List.mem_append.mp ht with h1 | h1
          · exact hI.1 tstep h1
          · rw [List.mem_singleton.mp h1]
            exact hI.2
        · rw [htss, hnum]
          refine ⟨fun tstep ht => ?_, ?_⟩
          · rcases List.mem_append.mp ht with h1 | h1
            · exact hI.1 tstep h1
            · rw [List.mem_singleton.mp h1]
              exact hI.2
          · unfold breakCondition at hbc
            simp only [Bool.or_eq_false_iff, decide_eq_false_iff_not,
              Nat.not_lt] at hbc
            omega
      · intro st l rest st' hp hI
        obtain ⟨-, n, -, htss, -, -, -, -⟩ :=
          processLine_stop_cases (some limit) maxL p st l st' hp
        rw [htss]
        intro tstep ht
        rcases List.mem_append.mp ht with h1 | h1
        · exact hI.1 tstep h1
        · rw [List.mem_singleton.mp h1]
          exact hI.2
      · intro st hI
        exact hI.1
  · intro front l rest maxT maxL p st n t dt hfront hcl hbrk
    unfold parse_file
    rw [runCont_append maxT maxL p front initState st hfront (l :: rest)]
    unfold runLines processLine
    rw [hcl]
    simp only [applyClassified]
    rw [if_pos hbrk]
    rfl
  · intro maxT maxL p st st' l hstop
    obtain ⟨-, n, hsome, -, -, -, -, hbc⟩ :=
      processLine_stop_cases maxT maxL p st l st' hstop
    exact ⟨n, hsome, hbc⟩

/-- C4 (witness). -/
theorem C4_witness :
    (∀ tstep ∈ c4Sim.timesteps, tstep.number ≤ 1) ∧
    parse_file ([] ++ lineStep1 :: []) (some 0) none false =
      .ok { timesteps := [initTimeStep], mesh_read_time := none,
            execution_time := none } ∧
    ∃ n, (classify (prep false lineStep1)).startIdx = some n ∧
      breakCondition (some 0) none n (initState.number_of_lines_read + 1) = true :=
  ⟨C4_limits.1 [lineStep1, lineStep2] 1 none false c4Sim (by decide),
   C4_limits.2.1 [] lineStep1 [] (some 0) none false initState 1 (mkRat 1 10)
     (mkRat 1 100) rfl (by decide) (by decide),
   C4_limits.2.2 (some 0) none false initState c6State lineStep1 (by decide)⟩

/-- C5: at every iteration boundary all scalar accumulators are reset to
absent and the pending convergence list is cleared; consequently, for two
iteration-timing lines with no assembly-duration line between them, the
Iteration finalized at the second line has an absent assembly time. -/
theorem C5_accumulator_reset :
    (∀ (maxT maxL : Option Nat) (p : Bool) (st : PState) (l : List Char)
        (st' : PState) (n : Nat) (t : ℚ),
        classify (prep p l) = .iter n t →
        processLine maxT maxL p st l = .cont st' →
        st'.assembly_time = none ∧ st'.dirichlet_bc_time = none ∧
        st'.linear_solver_time = none ∧ st'.phase_field_parameter = none ∧
        st'.component_convergence = []) ∧
    (∀ (maxT maxL : Option Nat) (p : Bool) (st : PState) (l1 : List Char)
        (q : List (List Char)) (l2 : List Char) (st1 st2 : PState)
        (n1 : Nat) (t1 : ℚ) (n2 : Nat) (t2 : ℚ),
        classify (prep p l1) = .iter n1 t1 →
        processLine maxT maxL p st l1 = .cont st1 →
        runCont maxT maxL p st1 q = some st2 →
        (∀ l ∈ q, (classify (prep p l)).isAssembly = false) →
        classify (prep p l2) = .iter n2 t2 →
        ∃ st3 it, processLine maxT maxL p st2 l2 = .cont st3 ∧
          st3.ts.iterations = st2.ts.iterations ++ [it] ∧
          it.number = n2 ∧ it.cpu_time = t2 ∧ it.assembly_time = none) := by
  have reset : ∀ (maxT maxL : Option Nat) (p : Bool) (st : PState)
      (l : List Char) (st' : PState) (n : Nat) (t : ℚ),
      classify (prep p l) = .iter n t →
      processLine maxT maxL p st l = .cont st' →
      st'.assembly_time = none ∧ st'.dirichlet_bc_time = none ∧
      st'.linear_solver_time = none ∧ st'.phase_field_parameter = none ∧
      st'.component_convergence = [] := by
    intro maxT maxL p st l st' n t hcl hp
    unfold processLine at hp
    rw [hcl] at hp
    simp only [applyClassified, StepOut.cont.injEq] at hp
    subst hp
    exact ⟨rfl, rfl, rfl, rfl, rfl⟩
  refine ⟨reset, ?_⟩
  intro maxT maxL p st l1 q l2 st1 st2 n1 t1 n2 t2 hcl1 hp1 hrc hq hcl2
  have h1 : st1.assembly_time = none :=
    (reset maxT maxL p st l1 st1 n1 t1 hcl1 hp1).1
  have h2 : st2.assembly_time = none :=
    assembly_none_runCont maxT maxL p q st1 st2 hrc hq h1
  have hstep : processLine maxT maxL p st2 l2 = StepOut.cont
      { st2 with
        number_of_lines_read := st2.number_of_lines_read + 1,
        ts := { st2.ts with iterations := st2.ts.iterations ++
          [{ number := n2, assembly_time := st2.assembly_time,
             dirichlet_bc_time := st2.dirichlet_bc_time,
             linear_solver_time := st2.linear_solver_time, cpu_time := t2,
             phase_field_parameter := st2.phase_field_parameter,
             component_convergence := st2.component_convergence }] },
        assembly_time := none, dirichlet_bc_time := none,
        linear_solver_time := none, phase_field_parameter := none,
        component_convergence := [] } := by
    unfold processLine
    rw [hcl2]
    rfl
  exact ⟨_, _, hstep, rfl, rfl, rfl, h2⟩

/-- C5 (witness). -/
theorem C5_witness :
    (c5St1.assembly_time = none ∧ c5St1.dirichlet_bc_time = none ∧
      c5St1.linear_solver_time = none ∧ c5St1.phase_field_parameter = none ∧
      c5St1.component_convergence = []) ∧
    ∃ st3 it, processLine none none false c5St1 lineIter2 = .cont st3 ∧
      st3.ts.iterations = c5St1.ts.iterations ++ [it] ∧
      it.number = 2 ∧ it.cpu_time = mkRat 3 10 ∧ it.assembly_time = none :=
  ⟨C5_accumulator_reset.1 none none false initState lineIter1 c5St1 1
      (mkRat 1 20) (by decide) (by decide),
   C5_accumulator_reset.2 none none false initState lineIter1 [] lineIter2
      c5St1 c5St1 1 (mkRat 1 20) 2 (mkRat 3 10) (by decide) (by decide) rfl
      (by simp) (by decide)⟩

/-- C6: a run with no execution-duration line never finalizes the last
in-progress TimeStep (its allocation is absent from the result); conversely
an execution-duration line records the duration on the Simulation state and
pushes the active TimeStep onto the result, keeping it active. -/
theorem C6_unfinalized_last :
    (∀ (p : Bool) (lines : List (List Char)) (st : PState),
        runCont none none p initState lines = some st →
        (∀ l ∈ lines, (classify (prep p l)).isExec = false) →
        parse_file lines none none p = .ok (finalize st) ∧
        ∀ tstep ∈ st.tss, tstep.uid ≠ st.ts.uid) ∧
    (∀ (maxT maxL : Option Nat) (p : Bool) (st : PState) (l : List Char)
        (v : ℚ), classify (prep p l) = .exec v →
        processLine maxT maxL p st l = .cont
          { st with
            number_of_lines_read := st.number_of_lines_read + 1,
            execution_time := some v,
            tss := st.tss ++ [st.ts] }) := by
  constructor
  · intro p lines st hrc hnoexec
    have hok : runLines none none p initState lines = .ok st :=
      runCont_runLines none none p lines initState st hrc
    refine ⟨by unfold parse_file; rw [hok]; rfl, ?_⟩
    have := uid_fresh_runCont none none p lines initState st hrc hnoexec
      ⟨by simp [initState], Nat.zero_lt_one, by simp [initState]⟩
    exact this.2.2
  · intro maxT maxL p st l v hcl
    unfold processLine
    rw [hcl]
    rfl

/-- C6 (witness). -/
theorem C6_witness :
    (parse_file [lineStep1] none none false = .ok (finalize c6State) ∧
      ∀ tstep ∈ c6State.tss, tstep.uid ≠ c6State.ts.uid) ∧
    processLine none none false initState lineExec = .cont
      { initState with
        number_of_lines_read := 1,
        execution_time := some (mkRat 3 2),
        tss := [initTimeStep] } :=
  ⟨C6_unfinalized_last.1 false [lineStep1] c6State (by decide) (by decide),
   C6_unfinalized_last.2 none none false initState lineExec (mkRat 3 2)
     (by decide)⟩

end Ogs
